import Mathlib

/-!
Verification of the protogetter analyzer (ghostiam/protogolint).

The repository's `src/protogetter.go` carries two revisions of the analyzer:
an earlier revision (a pruning traversal over four node kinds, embedded in
namespace `V1` below) and the current revision (a plain pre-order traversal
deduplicated by a positional replacement filter, embedded in namespace `V2`).
The parts shared by both revisions (the Go expression model, the type
capability oracle `methodExists` / `isProtoMessage`, generated-file detection
and node formatting) are embedded once at top level.

The current revision calls a processor (`Process`, `PosFilter`, `Result`)
whose source is not part of `src`; those definitions are modelled from the
specification and are marked `Modelled from the spec:` in their doc comments.
-/

/-- Unary operator tokens as used by the analyzer; `and` is Go's `token.AND`,
the address-of operator `&`. -/
inductive UnaryOp where
  | and
  | not
  | sub
  | xor
  deriving DecidableEq

mutual

/-- Go expressions, restricted to the shapes the analyzer inspects:
identifiers, literals, malformed (`ast.BadExpr`) nodes, selector (field
access) expressions, unary expressions, index expressions and calls. -/
inductive Expr where
  | ident (name : String)
  | basicLit (text : String)
  | badExpr (width : Nat)
  | selectorExpr (x : Expr) (sel : String)
  | unaryExpr (op : UnaryOp) (x : Expr)
  | indexExpr (x : Expr) (idx : Expr)
  | callExpr (fn : Expr) (args : ExprList)

/-- Argument / operand lists, as a mutual inductive so that all recursion over
expressions is structural. -/
inductive ExprList where
  | nil
  | cons (head : Expr) (tail : ExprList)

end

/-- Go statements, restricted to the shapes the analyzer distinguishes. -/
inductive Stmt where
  | assignStmt (lhs rhs : ExprList)
  | incDecStmt (x : Expr)
  | exprStmt (x : Expr)

/-- A parsed Go file: its comment groups (each already rendered to plain text,
as Go's `(*ast.CommentGroup).Text` does) and its statements. -/
structure GoFile where
  comments : List String
  decls : List Stmt

/-- Model of Go's `strings.HasPrefix`: `goHasPre s p = true` iff `p` is a
prefix of `s`. -/
def goHasPre (s p : String) : Bool := p.data.isPrefixOf s.data

/-- The printed text of a unary operator token. -/
def UnaryOp.text : UnaryOp → String
  | .and => "&"
  | .not => "!"
  | .sub => "-"
  | .xor => "^"

mutual

/-- Model of `go/format.Node` on an expression: fails on malformed
(`ast.BadExpr`) nodes and otherwise produces the canonical source text. -/
def formatE : Expr → Except String String
  | .ident n => .ok n
  | .basicLit t => .ok t
  | .badExpr _ => .error "format node"
  | .selectorExpr x s => do
      let xs ← formatE x
      pure (xs ++ "." ++ s)
  | .unaryExpr op x => do
      let xs ← formatE x
      pure (op.text ++ xs)
  | .indexExpr x i => do
      let xs ← formatE x
      let ixs ← formatE i
      pure (xs ++ "[" ++ ixs ++ "]")
  | .callExpr f a => do
      let fs ← formatE f
      let args ← formatArgsE a
      pure (fs ++ "(" ++ args ++ ")")

/-- Formats an argument list, separating the entries with a comma and space. -/
def formatArgsE : ExprList → Except String String
  | .nil => .ok ""
  | .cons a .nil => formatE a
  | .cons a rest => do
      let s1 ← formatE a
      let s2 ← formatArgsE rest
      pure (s1 ++ ", " ++ s2)

end

/-- The repository's `formatNode`: on a formatting error it logs the error and
returns the empty string. -/
def formatNode (e : Expr) : String :=
  match formatE e with
  | .ok s => s
  | .error _ => ""

/-- Static Go types, as far as `methodExists` inspects them: a named type with
its method set, a pointer type, or anything else. -/
inductive GoType where
  | namedT (methods : List String)
  | pointerT (elem : GoType)
  | basicT

/-- Model of `Underlying` as used by `methodExists`: the underlying type of a
pointer is the pointer itself, a named type's underlying definition is taken
to be a non-pointer, and everything else is opaque. -/
def GoType.underlying : GoType → GoType
  | .pointerT e => .pointerT e
  | .namedT _ => .basicT
  | .basicT => .basicT

/-- The type-information oracle (`*types.Info`): resolves an expression to its
static type, when available. -/
structure TypesInfo where
  typeOf : Expr → Option GoType

/-- Resolved type of an expression under possibly-absent type information. -/
def typeOfInfo : Option TypesInfo → Expr → Option GoType
  | none, _ => none
  | some i, e => i.typeOf e

/-- The repository's `methodExists`: nil info or an unresolvable type yields
false; one level of pointer indirection is stripped; only a named type's
method set is searched. -/
def methodExists (info : Option TypesInfo) (x : Expr) (name : String) : Bool :=
  match info with
  | none => false
  | some i =>
    match i.typeOf x with
    | none => false
    | some t0 =>
      let t := match t0.underlying with
        | .pointerT e => e
        | _ => t0
      match t with
      | .namedT ms => ms.contains name
      | _ => false

/-- The repository's `isProtoMessage`: a type is in scope when it has the v2
marker `ProtoReflect`, or the v1 marker `ProtoMessage` without the
protoc-gen-gogo marker `MarshalToSizedBuffer`. -/
def isProtoMessage (info : Option TypesInfo) (expr : Expr) : Bool :=
  if methodExists info expr "ProtoReflect" then true
  else if methodExists info expr "ProtoMessage" then
    ! methodExists info expr "MarshalToSizedBuffer"
  else false

/-- The repository's `isGeneratedFile`: true when some comment group's text
starts with "Code generated". -/
def isGeneratedFile (f : GoFile) : Bool :=
  f.comments.any (fun c => goHasPre c "Code generated")

/-- Whether an expression is a selector (field access) expression. -/
def isSelectorExpr : Expr → Bool
  | .selectorExpr _ _ => true
  | _ => false

/-- Whether some member of the list satisfies the predicate. -/
def ExprList.any (p : Expr → Bool) : ExprList → Bool
  | .nil => false
  | .cons a rest => p a || ExprList.any p rest

/-- The three tests `analyzeSelectorExpr` applies to a selector `x.sel`,
gathered as one predicate: the base is a proto message, the field name does
not already carry the `Get` naming convention, and the getter exists. -/
def qualifies (info : Option TypesInfo) (x : Expr) (sel : String) : Bool :=
  isProtoMessage info x && ! goHasPre sel "Get" && methodExists info x ("Get" ++ sel)

namespace V1

/-- The earlier revision's `Edit` (the fine-grained fix for just the selector
suffix): the field identifier it covers and the replacement text. -/
structure Edit where
  range : String
  From : String
  To : String

/-- The earlier revision's `Report` (one Finding): the offending selector
node, the original text, the replacement text, and the selector-level edit. -/
structure Report where
  range : Expr
  From : String
  To : String
  selectorEdit : Edit

/-- The earlier revision's `analyzeSelectorExpr` on a selector `x.sel`.
(The Go code's `se.Sel == nil` guard cannot arise here: the embedding's
selector always carries its identifier.) -/
def analyzeSelectorExpr (info : Option TypesInfo) (x : Expr) (sel : String) : Option Report :=
  if ! isProtoMessage info x then none
  else if goHasPre sel "Get" then none
  else if methodExists info x ("Get" ++ sel) then
    some { range := .selectorExpr x sel,
           From := formatNode (.selectorExpr x sel),
           To := formatNode x ++ ".Get" ++ sel ++ "()",
           selectorEdit := { range := sel, From := sel, To := "Get" ++ sel ++ "()" } }
  else none

mutual

/-- The earlier revision's traversal body over an expression:
`inspector.Nodes` over the four node kinds, where returning false prunes the
subtree.  An address-of unary expression prunes its operand; any other unary
operator descends; a selector is analyzed and then descended into. -/
def visitExpr (info : Option TypesInfo) : Expr → List Report
  | .selectorExpr x s =>
    (match analyzeSelectorExpr info x s with
     | some r => [r]
     | none => []) ++ visitExpr info x
  | .unaryExpr op x => if op = .and then [] else visitExpr info x
  | .indexExpr x i => visitExpr info x ++ visitExpr info i
  | .callExpr f a => visitExpr info f ++ visitArgs info a
  | _ => []

/-- Traversal over an expression list, in order. -/
def visitArgs (info : Option TypesInfo) : ExprList → List Report
  | .nil => []
  | .cons a rest => visitExpr info a ++ visitArgs info rest

end

/-- The earlier revision's traversal body over a statement: an assignment with
a selector on its left-hand side prunes the whole statement, an
increment/decrement statement always prunes its subtree, and everything else
descends. -/
def visitStmt (info : Option TypesInfo) : Stmt → List Report
  | .assignStmt lhs rhs =>
    if lhs.any isSelectorExpr then [] else visitArgs info lhs ++ visitArgs info rhs
  | .incDecStmt _ => []
  | .exprStmt x => visitExpr info x

/-- Traversal over a statement list, in order. -/
def visitStmts (info : Option TypesInfo) : List Stmt → List Report
  | [] => []
  | s :: rest => visitStmt info s ++ visitStmts info rest

/-- The earlier revision's `Run`: generated files are skipped, the remaining
files are traversed in order, and the Findings are returned in visit order
(the standalone and golangci modes emit the same Findings through different
adapters). -/
def run (info : Option TypesInfo) (files : List GoFile) : List Report :=
  ((files.filter (fun f => ! isGeneratedFile f)).map (fun f => visitStmts info f.decls)).flatten

end V1

mutual

/-- Length of an expression's canonical source text (source spans are derived
from the canonical layout, so a node's range is the half-open interval from
its offset to the offset plus its length). -/
def exprLen : Expr → Nat
  | .ident n => n.length
  | .basicLit t => t.length
  | .badExpr w => w
  | .selectorExpr x s => exprLen x + 1 + s.length
  | .unaryExpr _ x => 1 + exprLen x
  | .indexExpr x i => exprLen x + 1 + exprLen i + 1
  | .callExpr f a => exprLen f + 1 + argsLen a + 1

/-- Length of an argument list's text, entries separated by a comma and space. -/
def argsLen : ExprList → Nat
  | .nil => 0
  | .cons a .nil => exprLen a
  | .cons a rest => exprLen a + 2 + argsLen rest

end

/-- Length of a statement's canonical source text. -/
def stmtLen : Stmt → Nat
  | .assignStmt lhs rhs => argsLen lhs + 3 + argsLen rhs
  | .incDecStmt x => exprLen x + 2
  | .exprStmt x => exprLen x

/-- Total length of a statement list, statements separated by a newline. -/
def stmtsLen : List Stmt → Nat
  | [] => 0
  | s :: rest => stmtLen s + 1 + stmtsLen rest

namespace V2

/-- A traversal node of the current revision: either a statement or an
expression. -/
inductive GoNode where
  | stmtNode (s : Stmt)
  | exprNode (e : Expr)

/-- A traversal node together with its source range (`Pos`/`End`). -/
structure NodeAt where
  node : GoNode
  pos : Nat
  endPos : Nat

mutual

/-- The pre-order node stream of `inspector.Preorder` over the current
revision's node kinds (assignment, call, selector, increment/decrement and
unary nodes), starting from an expression laid out at the given offset. -/
def preExpr (o : Nat) : Expr → List NodeAt
  | .selectorExpr x s =>
    ⟨.exprNode (.selectorExpr x s), o, o + exprLen (.selectorExpr x s)⟩ :: preExpr o x
  | .unaryExpr op x =>
    ⟨.exprNode (.unaryExpr op x), o, o + exprLen (.unaryExpr op x)⟩ :: preExpr (o + 1) x
  | .indexExpr x i => preExpr o x ++ preExpr (o + exprLen x + 1) i
  | .callExpr f a =>
    ⟨.exprNode (.callExpr f a), o, o + exprLen (.callExpr f a)⟩ ::
      (preExpr o f ++ preArgsNodes (o + exprLen f + 1) a)
  | _ => []

/-- Pre-order node stream of an expression list laid out at the given offset. -/
def preArgsNodes (o : Nat) : ExprList → List NodeAt
  | .nil => []
  | .cons a rest => preExpr o a ++ preArgsNodes (o + exprLen a + 2) rest

end

/-- Pre-order node stream of a statement laid out at the given offset. -/
def preStmt (o : Nat) : Stmt → List NodeAt
  | .assignStmt lhs rhs =>
    ⟨.stmtNode (.assignStmt lhs rhs), o, o + stmtLen (.assignStmt lhs rhs)⟩ ::
      (preArgsNodes o lhs ++ preArgsNodes (o + argsLen lhs + 3) rhs)
  | .incDecStmt x =>
    ⟨.stmtNode (.incDecStmt x), o, o + stmtLen (.incDecStmt x)⟩ :: preExpr o x
  | .exprStmt x => preExpr o x

/-- Pre-order node stream of a statement list laid out at the given offset. -/
def preStmts (o : Nat) : List Stmt → List NodeAt
  | [] => []
  | s :: rest => preStmt o s ++ preStmts (o + stmtLen s + 1) rest

/-- Pre-order node stream of a file list; files occupy disjoint offset
ranges, as distinct files do in a `token.FileSet`. -/
def filesNodes (o : Nat) : List GoFile → List NodeAt
  | [] => []
  | f :: rest => preStmts o f.decls ++ filesNodes (o + stmtsLen f.decls + 1) rest

/-- Modelled from the spec: the `PosFilter` (exempt-position set and
replaced-span registry) is not part of `src`.  Per spec section 4.4 it
records the positions of exempt nodes, plus the half-open source ranges of
already-accepted Findings, with an interval query so that candidates nested
in, or enclosing, a registered range are suppressed. -/
structure PosFilter where
  filteredPos : List Nat
  replaced : List (Nat × Nat)

/-- A fresh filter, as `NewPosFilter` produces at the start of a run. -/
def PosFilter.empty : PosFilter := ⟨[], []⟩

/-- Modelled from the spec: `IsFiltered` is a point query on the exempt
position set. -/
def PosFilter.isFiltered (f : PosFilter) (p : Nat) : Bool := f.filteredPos.contains p

/-- Two half-open ranges intersect nontrivially. -/
def rangesOverlap (a b : Nat × Nat) : Bool := decide (a.1 < b.2) && decide (b.1 < a.2)

/-- Modelled from the spec: `IsAlreadyReplaced` holds when the queried range
overlaps a registered range (suppressing both nested and enclosing
candidates). -/
def PosFilter.isAlreadyReplaced (f : PosFilter) (p e : Nat) : Bool :=
  f.replaced.any (fun r => rangesOverlap r (p, e))

/-- Modelled from the spec: `AddAlreadyReplaced` registers a range; nothing
ever removes one within a run. -/
def PosFilter.addAlreadyReplaced (f : PosFilter) (p e : Nat) : PosFilter :=
  { f with replaced := f.replaced ++ [(p, e)] }

/-- Modelled from the spec: adding exempt positions to the filter. -/
def PosFilter.addFiltered (f : PosFilter) (ps : List Nat) : PosFilter :=
  { f with filteredPos := f.filteredPos ++ ps }

/-- Modelled from the spec: the `Result` the processor produces for one node,
carrying whether the node was skipped and the From/To texts. -/
structure Result where
  skipped : Bool
  From : String
  To : String

/-- A skipped result. -/
def Result.skip : Result := ⟨true, "", ""⟩

/-- Modelled from the spec: `Process`, the per-node processor, is not part of
`src`.  An exempt position (an assignment with a field-access target, an
increment/decrement, an address-of) has its whole subtree's positions added
to the filter and is skipped; a qualifying selector yields `From`/`To` per
the Finding Synthesizer, with a pretty-printing failure returned as an
error; every other node is skipped. -/
def Process (info : Option TypesInfo) (filter : PosFilter) (n : NodeAt) :
    Except String (PosFilter × Result) :=
  match n.node with
  | .stmtNode (.assignStmt lhs rhs) =>
    if lhs.any isSelectorExpr then
      .ok (filter.addFiltered
        ((preArgsNodes n.pos lhs ++ preArgsNodes (n.pos + argsLen lhs + 3) rhs).map NodeAt.pos),
        Result.skip)
    else .ok (filter, Result.skip)
  | .stmtNode (.incDecStmt x) =>
    .ok (filter.addFiltered ((preExpr n.pos x).map NodeAt.pos), Result.skip)
  | .stmtNode _ => .ok (filter, Result.skip)
  | .exprNode (.unaryExpr op x) =>
    if op = .and then
      .ok (filter.addFiltered ((preExpr (n.pos + 1) x).map NodeAt.pos), Result.skip)
    else .ok (filter, Result.skip)
  | .exprNode (.selectorExpr x s) =>
    if qualifies info x s then
      match formatE (.selectorExpr x s), formatE x with
      | .ok fr, .ok base => .ok (filter, ⟨false, fr, base ++ ".Get" ++ s ++ "()"⟩)
      | _, _ => .error "format node"
    else .ok (filter, Result.skip)
  | .exprNode _ => .ok (filter, Result.skip)

/-- One text replacement of a suggested fix. -/
structure TextEdit where
  pos : Nat
  endPos : Nat
  newText : String

/-- A suggested fix of an `analysis.Diagnostic`. -/
structure SuggestedFix where
  message : String
  textEdits : List TextEdit

/-- An `analysis.Diagnostic`: a range, a message, and suggested fixes. -/
structure Diagnostic where
  pos : Nat
  endPos : Nat
  message : String
  suggestedFixes : List SuggestedFix

/-- The current revision's `Report`: the node's range and the processor's
result. -/
structure Report where
  pos : Nat
  endPos : Nat
  result : Result

/-- The inline-fix descriptor of a golangci-lint issue.  (Columns are modelled
by source offsets, the layout being single-line; the length is the length of
the original text.) -/
structure InlineFix where
  startCol : Nat
  length : Nat
  newString : String

/-- A golangci-lint `Issue`: a position, a message, and an inline fix. -/
structure Issue where
  pos : Nat
  message : String
  inlineFix : InlineFix

/-- Model of `fmt.Sprintf` applied to the current revision's `msgFormat`
constant, "avoid direct access to proto field %q use %q" (the `%q` verb
wraps its argument in double quotes). -/
def msgFormat (fr t : String) : String :=
  "avoid direct access to proto field \"" ++ fr ++ "\" use \"" ++ t ++ "\""

/-- The current revision's `Report.ToDiagReport`: the embedded diagnostic with
a suggested fix replacing the full range by `To`. -/
def Report.ToDiagReport (r : Report) : Diagnostic :=
  { pos := r.pos, endPos := r.endPos,
    message := msgFormat r.result.From r.result.To,
    suggestedFixes := [{ message := msgFormat r.result.From r.result.To,
                         textEdits := [{ pos := r.pos, endPos := r.endPos,
                                         newText := r.result.To }] }] }

/-- The current revision's `Report.ToIssue`: the structured issue record with
its inline-fix descriptor. -/
def Report.ToIssue (r : Report) : Issue :=
  { pos := r.pos,
    message := msgFormat r.result.From r.result.To,
    inlineFix := { startCol := r.pos, length := r.result.From.length,
                   newString := r.result.To } }

/-- The current revision's `analyse`: skip filtered positions, surface a
processor error as a plain diagnostic at the node's range, re-check the
filter, skip skipped results, deduplicate against the replaced-span registry,
and otherwise register the range and produce the Report. -/
def analyse (info : Option TypesInfo) (filter : PosFilter) (n : NodeAt) :
    PosFilter × List Diagnostic × Option Report :=
  if filter.isFiltered n.pos then (filter, [], none)
  else
    match Process info filter n with
    | .error e =>
      (filter, [{ pos := n.pos, endPos := n.endPos, message := "error: " ++ e,
                  suggestedFixes := [] }], none)
    | .ok (filter2, result) =>
      if filter2.isFiltered n.pos then (filter2, [], none)
      else if result.skipped then (filter2, [], none)
      else if filter2.isAlreadyReplaced n.pos n.endPos then (filter2, [], none)
      else (filter2.addAlreadyReplaced n.pos n.endPos, [],
            some ⟨n.pos, n.endPos, result⟩)

/-- Running state of a traversal: the filter, the accepted Findings, and the
emitted plain diagnostics. -/
structure RunState where
  filter : PosFilter
  reports : List Report
  diags : List Diagnostic

/-- One traversal step: analyse a node and accumulate its outcome. -/
def step (info : Option TypesInfo) (st : RunState) (n : NodeAt) : RunState :=
  match analyse info st.filter n with
  | (f2, ds, none) => ⟨f2, st.reports, st.diags ++ ds⟩
  | (f2, ds, some r) => ⟨f2, st.reports ++ [r], st.diags ++ ds⟩

/-- The traversal over a node stream. -/
def runNodes (info : Option TypesInfo) (st : RunState) : List NodeAt → RunState
  | [] => st
  | n :: rest => runNodes info (step info st n) rest

/-- The current revision's `Run`: generated files are skipped, the remaining
files' node stream is traversed pre-order with a fresh filter, and the
accepted Findings and emitted diagnostics are returned in traversal order. -/
def run (info : Option TypesInfo) (files : List GoFile) :
    List Report × List Diagnostic :=
  let keep := files.filter (fun f => ! isGeneratedFile f)
  let st := runNodes info ⟨PosFilter.empty, [], []⟩ (filesNodes 0 keep)
  (st.reports, st.diags)

/-- Two Findings' half-open source ranges are disjoint. -/
def disjointRanges (a b : Report) : Prop := b.endPos ≤ a.pos ∨ a.endPos ≤ b.pos

end V2

/-- A field name carrying the getter convention is a prefix match. -/
theorem goHasPre_get (s : String) : goHasPre ("Get" ++ s) "Get" = true := by
  cases s with
  | mk l => simp [goHasPre, String.append, List.isPrefixOf]

/-- The qualification predicate, split into its three conjuncts. -/
theorem qualifies_eq_true (info : Option TypesInfo) (x : Expr) (s : String) :
    qualifies info x s = true ↔
      isProtoMessage info x = true ∧ goHasPre s "Get" = false ∧
        methodExists info x ("Get" ++ s) = true := by
  simp [qualifies, Bool.and_eq_true, Bool.not_eq_true']
  tauto

/-- A field already named with the getter convention is never reported. -/
theorem analyzeSelectorExpr_none_of_pre (info : Option TypesInfo) (x : Expr)
    (s : String) (h : goHasPre s "Get" = true) :
    V1.analyzeSelectorExpr info x s = none := by
  unfold V1.analyzeSelectorExpr
  split
  · rfl
  · simp [h]

/-- A non-qualifying selector is never reported. -/
theorem analyzeSelectorExpr_none_of_not_qualifies (info : Option TypesInfo)
    (x : Expr) (s : String) (h : qualifies info x s = false) :
    V1.analyzeSelectorExpr info x s = none := by
  unfold V1.analyzeSelectorExpr
  split
  · rfl
  · rename_i hp
    simp only [Bool.not_eq_true'] at hp
    split
    · rfl
    · rename_i hpre
      simp only [Bool.not_eq_true] at hpre
      split
      · rename_i hme
        exfalso
        simp [qualifies, hp, hpre, hme] at h
      · rfl

/-- A qualifying selector is reported, with the synthesized texts. -/
theorem analyzeSelectorExpr_of_qualifies (info : Option TypesInfo) (x : Expr)
    (s : String) (h : qualifies info x s = true) :
    V1.analyzeSelectorExpr info x s =
      some { range := .selectorExpr x s,
             From := formatNode (.selectorExpr x s),
             To := formatNode x ++ ".Get" ++ s ++ "()",
             selectorEdit := { range := s, From := s, To := "Get" ++ s ++ "()" } } := by
  obtain ⟨h1, h2, h3⟩ := (qualifies_eq_true info x s).mp h
  simp [V1.analyzeSelectorExpr, h1, h2, h3]

/-- A named resolved type makes `methodExists` a method-set query. -/
theorem methodExists_of_named (info : Option TypesInfo) (x : Expr)
    (ms : List String) (name : String)
    (hx : typeOfInfo info x = some (.namedT ms)) :
    methodExists info x name = ms.contains name := by
  cases info with
  | none => simp [typeOfInfo] at hx
  | some i =>
    simp only [typeOfInfo] at hx
    simp [methodExists, hx, GoType.underlying]

mutual

/-- With nil type information the earlier revision's traversal of an
expression finds nothing. -/
theorem visitExpr_none : (e : Expr) → V1.visitExpr none e = []
  | .ident _ => rfl
  | .basicLit _ => rfl
  | .badExpr _ => rfl
  | .selectorExpr x s => by
      have ih := visitExpr_none x
      simp [V1.visitExpr, V1.analyzeSelectorExpr, isProtoMessage, methodExists, ih]
  | .unaryExpr op x => by
      have ih := visitExpr_none x
      by_cases h : op = .and <;> simp [V1.visitExpr, h, ih]
  | .indexExpr x i => by
      have ih1 := visitExpr_none x
      have ih2 := visitExpr_none i
      simp [V1.visitExpr, ih1, ih2]
  | .callExpr f a => by
      have ihf := visitExpr_none f
      have iha := visitArgs_none a
      simp [V1.visitExpr, ihf, iha]

/-- With nil type information the earlier revision's traversal of an
expression list finds nothing. -/
theorem visitArgs_none : (l : ExprList) → V1.visitArgs none l = []
  | .nil => rfl
  | .cons a rest => by
      have ih1 := visitExpr_none a
      have ih2 := visitArgs_none rest
      simp [V1.visitArgs, ih1, ih2]

end

/-- With nil type information the earlier revision's traversal of a statement
finds nothing. -/
theorem visitStmt_none : (s : Stmt) → V1.visitStmt none s = []
  | .assignStmt lhs rhs => by
      by_cases h : lhs.any isSelectorExpr <;>
        simp [V1.visitStmt, h, visitArgs_none]
  | .incDecStmt _ => rfl
  | .exprStmt x => by simp [V1.visitStmt, visitExpr_none]

/-- With nil type information the earlier revision's traversal of a statement
list finds nothing. -/
theorem visitStmts_none : (l : List Stmt) → V1.visitStmts none l = []
  | [] => rfl
  | s :: rest => by simp [V1.visitStmts, visitStmt_none, visitStmts_none rest]

/-- With nil type information the earlier revision's run finds nothing. -/
theorem run_none (files : List GoFile) : V1.run none files = [] := by
  simp only [V1.run, List.flatten_eq_nil_iff]
  intro l hl
  obtain ⟨f, _, rfl⟩ := List.mem_map.mp hl
  exact visitStmts_none f.decls

/-- C1: an assignment with a field-access target yields no Finding anywhere in
the statement (its right-hand side included); an increment/decrement of a
field access and an address-of of a field access yield no Finding for that
sub-expression; any other unary operator leaves its operand inspectable. -/
theorem claim_C1 (info : Option TypesInfo) (lhs rhs : ExprList) (x e2 : Expr)
    (s : String) (op : UnaryOp)
    (h1 : lhs.any isSelectorExpr = true) (h2 : op ≠ UnaryOp.and) :
    V1.visitStmt info (.assignStmt lhs rhs) = [] ∧
    V1.visitStmt info (.incDecStmt (.selectorExpr x s)) = [] ∧
    V1.visitExpr info (.unaryExpr .and (.selectorExpr x s)) = [] ∧
    V1.visitExpr info (.unaryExpr op e2) = V1.visitExpr info e2 := by
  refine ⟨?_, rfl, ?_, ?_⟩
  · simp [V1.visitStmt, h1]
  · simp [V1.visitExpr]
  · simp [V1.visitExpr, h2]

/-- C1 witness: the exempt positions of a concrete program with a qualifying
accessor produce no Finding, and a logical-not operand stays inspectable. -/
theorem claim_C1_witness :
    ((ExprList.cons (Expr.selectorExpr (Expr.ident "t") "A") ExprList.nil).any
        isSelectorExpr = true) ∧
    (UnaryOp.not ≠ UnaryOp.and) ∧
    (V1.visitStmt (some ⟨fun _ => some (.namedT ["ProtoReflect", "GetA", "GetName"])⟩)
        (.assignStmt (ExprList.cons (Expr.selectorExpr (Expr.ident "t") "A") ExprList.nil)
          ExprList.nil) = [] ∧
     V1.visitStmt (some ⟨fun _ => some (.namedT ["ProtoReflect", "GetA", "GetName"])⟩)
        (.incDecStmt (.selectorExpr (Expr.ident "t") "Name")) = [] ∧
     V1.visitExpr (some ⟨fun _ => some (.namedT ["ProtoReflect", "GetA", "GetName"])⟩)
        (.unaryExpr .and (.selectorExpr (Expr.ident "t") "Name")) = [] ∧
     V1.visitExpr (some ⟨fun _ => some (.namedT ["ProtoReflect", "GetA", "GetName"])⟩)
        (.unaryExpr .not (Expr.ident "y")) =
       V1.visitExpr (some ⟨fun _ => some (.namedT ["ProtoReflect", "GetA", "GetName"])⟩)
        (Expr.ident "y")) :=
  ⟨by decide, by decide,
   claim_C1 (some ⟨fun _ => some (.namedT ["ProtoReflect", "GetA", "GetName"])⟩)
     (ExprList.cons (Expr.selectorExpr (Expr.ident "t") "A") ExprList.nil) ExprList.nil
     (Expr.ident "t") (Expr.ident "y") "Name" UnaryOp.not (by decide) (by decide)⟩

/-- C3: a Finding's From is the access expression's source text and its To is
the base text followed by ".Get", the field name and "()"; in particular
`msg.Name` with accessor `GetName` yields From "msg.Name", To "msg.GetName()". -/
theorem claim_C3 (info info2 : Option TypesInfo) (x : Expr) (s : String)
    (r : V1.Report)
    (h : V1.analyzeSelectorExpr info x s = some r)
    (h2 : qualifies info2 (.ident "msg") "Name" = true) :
    (r.From = formatNode (.selectorExpr x s) ∧
     r.To = formatNode x ++ ".Get" ++ s ++ "()") ∧
    ∃ r2 : V1.Report,
      V1.analyzeSelectorExpr info2 (.ident "msg") "Name" = some r2 ∧
        r2.From = "msg.Name" ∧ r2.To = "msg.GetName()" := by
  constructor
  · unfold V1.analyzeSelectorExpr at h
    split at h
    · exact absurd h (by simp)
    · split at h
      · exact absurd h (by simp)
      · split at h
        · rw [Option.some.injEq] at h
          subst h
          exact ⟨rfl, rfl⟩
        · exact absurd h (by simp)
  · refine ⟨_, analyzeSelectorExpr_of_qualifies info2 _ _ h2, ?_, ?_⟩ <;> decide

/-- C3 witness: a concrete qualifying access `m.F` produces exactly the
predicted From/To texts. -/
theorem claim_C3_witness :
    (V1.analyzeSelectorExpr (some ⟨fun _ => some (.namedT ["ProtoReflect", "GetF", "GetName"])⟩)
        (.ident "m") "F" =
      some { range := .selectorExpr (.ident "m") "F", From := "m.F", To := "m.GetF()",
             selectorEdit := { range := "F", From := "F", To := "GetF()" } }) ∧
    (qualifies (some ⟨fun _ => some (.namedT ["ProtoReflect", "GetF", "GetName"])⟩)
        (.ident "msg") "Name" = true) ∧
    ((({ range := .selectorExpr (.ident "m") "F", From := "m.F", To := "m.GetF()",
         selectorEdit := { range := "F", From := "F", To := "GetF()" } } : V1.Report).From =
        formatNode (.selectorExpr (.ident "m") "F") ∧
      (({ range := .selectorExpr (.ident "m") "F", From := "m.F", To := "m.GetF()",
          selectorEdit := { range := "F", From := "F", To := "GetF()" } } : V1.Report).To =
        formatNode (.ident "m") ++ ".Get" ++ "F" ++ "()")) ∧
     ∃ r2 : V1.Report,
       V1.analyzeSelectorExpr (some ⟨fun _ => some (.namedT ["ProtoReflect", "GetF", "GetName"])⟩)
           (.ident "msg") "Name" = some r2 ∧
         r2.From = "msg.Name" ∧ r2.To = "msg.GetName()") :=
  ⟨rfl, by decide,
   claim_C3 (some ⟨fun _ => some (.namedT ["ProtoReflect", "GetF", "GetName"])⟩)
     (some ⟨fun _ => some (.namedT ["ProtoReflect", "GetF", "GetName"])⟩)
     (.ident "m") "F" _ rfl (by decide)⟩

/-- C4: a type with only the v1 marker plus the protoc-gen-gogo marker is out
of scope, so no selector over it is ever reported, regardless of the
accessor's existence; a type with the v2 marker is in scope even with the
protoc-gen-gogo marker present. -/
theorem claim_C4 (info : Option TypesInfo) (x y : Expr) (ms msY : List String)
    (s : String)
    (hx : typeOfInfo info x = some (.namedT ms))
    (h1 : ms.contains "ProtoMessage" = true)
    (h2 : ms.contains "MarshalToSizedBuffer" = true)
    (h3 : ms.contains "ProtoReflect" = false)
    (hy : typeOfInfo info y = some (.namedT msY))
    (h4 : msY.contains "ProtoReflect" = true) :
    isProtoMessage info x = false ∧
    V1.analyzeSelectorExpr info x s = none ∧
    isProtoMessage info y = true := by
  have hex1 : methodExists info x "ProtoReflect" = false := by
    rw [methodExists_of_named info x ms _ hx]; exact h3
  have hex2 : methodExists info x "ProtoMessage" = true := by
    rw [methodExists_of_named info x ms _ hx]; exact h1
  have hex3 : methodExists info x "MarshalToSizedBuffer" = true := by
    rw [methodExists_of_named info x ms _ hx]; exact h2
  have hey : methodExists info y "ProtoReflect" = true := by
    rw [methodExists_of_named info y msY _ hy]; exact h4
  have hipx : isProtoMessage info x = false := by
    simp only [isProtoMessage]
    rw [hex1, hex2, hex3]
    simp
  refine ⟨hipx, ?_, ?_⟩
  · simp [V1.analyzeSelectorExpr, hipx]
  · simp only [isProtoMessage]
    rw [hey]
    simp

/-- C4 witness: a concrete gogo-marked type with an existing getter yields no
report, while a v2-marked type carrying the gogo marker stays in scope. -/
theorem claim_C4_witness :
    (typeOfInfo (some ⟨fun e => match e with
        | .ident "x" => some (.namedT ["ProtoMessage", "MarshalToSizedBuffer", "GetName"])
        | _ => some (.namedT ["ProtoReflect", "MarshalToSizedBuffer", "GetName"])⟩)
      (.ident "x") = some (.namedT ["ProtoMessage", "MarshalToSizedBuffer", "GetName"])) ∧
    (isProtoMessage (some ⟨fun e => match e with
        | .ident "x" => some (.namedT ["ProtoMessage", "MarshalToSizedBuffer", "GetName"])
        | _ => some (.namedT ["ProtoReflect", "MarshalToSizedBuffer", "GetName"])⟩)
      (.ident "x") = false ∧
     V1.analyzeSelectorExpr (some ⟨fun e => match e with
        | .ident "x" => some (.namedT ["ProtoMessage", "MarshalToSizedBuffer", "GetName"])
        | _ => some (.namedT ["ProtoReflect", "MarshalToSizedBuffer", "GetName"])⟩)
      (.ident "x") "Name" = none ∧
     isProtoMessage (some ⟨fun e => match e with
        | .ident "x" => some (.namedT ["ProtoMessage", "MarshalToSizedBuffer", "GetName"])
        | _ => some (.namedT ["ProtoReflect", "MarshalToSizedBuffer", "GetName"])⟩)
      (.ident "y") = true) :=
  ⟨rfl,
   claim_C4 (some ⟨fun e => match e with
      | .ident "x" => some (.namedT ["ProtoMessage", "MarshalToSizedBuffer", "GetName"])
      | _ => some (.namedT ["ProtoReflect", "MarshalToSizedBuffer", "GetName"])⟩)
     (.ident "x") (.ident "y")
     ["ProtoMessage", "MarshalToSizedBuffer", "GetName"]
     ["ProtoReflect", "MarshalToSizedBuffer", "GetName"]
     "Name" rfl (by decide) (by decide) (by decide) rfl (by decide)⟩

/-- C6: the embedded diagnostic and the structured issue derived from one
Finding carry exactly the message obtained by substituting From and To into
the "avoid direct access to proto field %q use %q" format, and therefore
never diverge. -/
theorem claim_C6 : ∀ r : V2.Report,
    (V2.Report.ToDiagReport r).message = V2.msgFormat r.result.From r.result.To ∧
    (V2.Report.ToIssue r).message = V2.msgFormat r.result.From r.result.To ∧
    (V2.Report.ToDiagReport r).message = (V2.Report.ToIssue r).message :=
  fun _ => ⟨rfl, rfl, rfl⟩

/-- C7: a file whose comment text begins with "Code generated" is excluded
wholesale before traversal, so it contributes no Finding even when its body
contains otherwise-qualifying accesses. -/
theorem claim_C7 (info : Option TypesInfo) (f : GoFile) (files : List GoFile)
    (h : isGeneratedFile f = true) :
    V1.run info (f :: files) = V1.run info files ∧ V1.run info [f] = [] := by
  constructor
  · simp [V1.run, h]
  · simp [V1.run, h]

/-- C7 witness: a concrete generated file containing a qualifying access
produces no Finding, though the same body in a non-generated file does. -/
theorem claim_C7_witness :
    (isGeneratedFile ⟨["Code generated by protoc-gen-go. DO NOT EDIT."],
        [.exprStmt (.selectorExpr (.ident "t") "Name")]⟩ = true) ∧
    (V1.run (some ⟨fun _ => some (.namedT ["ProtoReflect", "GetName"])⟩)
        [⟨["Code generated by protoc-gen-go. DO NOT EDIT."],
          [.exprStmt (.selectorExpr (.ident "t") "Name")]⟩] = [] ∧
     V1.run (some ⟨fun _ => some (.namedT ["ProtoReflect", "GetName"])⟩)
        ([⟨["Code generated by protoc-gen-go. DO NOT EDIT."],
           [.exprStmt (.selectorExpr (.ident "t") "Name")]⟩]) =
       V1.run (some ⟨fun _ => some (.namedT ["ProtoReflect", "GetName"])⟩) []) :=
  ⟨by decide,
   (claim_C7 (some ⟨fun _ => some (.namedT ["ProtoReflect", "GetName"])⟩)
      ⟨["Code generated by protoc-gen-go. DO NOT EDIT."],
        [.exprStmt (.selectorExpr (.ident "t") "Name")]⟩ [] (by decide)).2,
   (claim_C7 (some ⟨fun _ => some (.namedT ["ProtoReflect", "GetName"])⟩)
      ⟨["Code generated by protoc-gen-go. DO NOT EDIT."],
        [.exprStmt (.selectorExpr (.ident "t") "Name")]⟩ [] (by decide)).1⟩

/-- C9: with nil type information or an unresolvable expression type every
capability query answers false, no selector is reported, and the whole run
totals to zero Findings without failing. -/
theorem claim_C9 (i : TypesInfo) (x : Expr) (s name : String)
    (files : List GoFile) (h : i.typeOf x = none) :
    methodExists none x name = false ∧
    methodExists (some i) x name = false ∧
    isProtoMessage none x = false ∧
    V1.analyzeSelectorExpr none x s = none ∧
    V1.run none files = [] := by
  refine ⟨rfl, ?_, rfl, ?_, run_none files⟩
  · simp [methodExists, h]
  · simp [V1.analyzeSelectorExpr, isProtoMessage, methodExists]

/-- C9 witness: a concrete oracle with no type for `u` answers false on every
query about it, and a run without type information reports nothing. -/
theorem claim_C9_witness :
    ((⟨fun e => match e with
        | .ident "u" => none
        | _ => some (.namedT ["ProtoReflect", "GetName"])⟩ : TypesInfo).typeOf
      (.ident "u") = none) ∧
    (methodExists none (.ident "u") "GetName" = false ∧
     methodExists (some ⟨fun e => match e with
        | .ident "u" => none
        | _ => some (.namedT ["ProtoReflect", "GetName"])⟩) (.ident "u") "GetName" = false ∧
     isProtoMessage none (.ident "u") = false ∧
     V1.analyzeSelectorExpr none (.ident "u") "Name" = none ∧
     V1.run none [⟨[], [.exprStmt (.selectorExpr (.ident "u") "Name")]⟩] = []) :=
  ⟨rfl,
   claim_C9 ⟨fun e => match e with
      | .ident "u" => none
      | _ => some (.namedT ["ProtoReflect", "GetName"])⟩
     (.ident "u") "Name" "GetName"
     [⟨[], [.exprStmt (.selectorExpr (.ident "u") "Name")]⟩] rfl⟩

/-- C10: an increment/decrement statement prunes its whole subtree whatever
its operand is, so a qualifying selector nested inside (for example inside an
index expression, as in m[t.Field]++) yields no Finding, although that same
selector is reported when traversed outside the statement. -/
theorem claim_C10 (info : Option TypesInfo) (e m t : Expr) (fld : String)
    (hq : qualifies info t fld = true) :
    V1.visitStmt info (.incDecStmt e) = [] ∧
    V1.visitStmt info (.incDecStmt (.indexExpr m (.selectorExpr t fld))) = [] ∧
    V1.visitExpr info (.selectorExpr t fld) ≠ [] := by
  refine ⟨rfl, rfl, ?_⟩
  rw [V1.visitExpr, analyzeSelectorExpr_of_qualifies info t fld hq]
  simp

/-- C10 witness: the concrete statement m[t.Field]++ yields no Finding even
though t.Field qualifies and is reported on its own. -/
theorem claim_C10_witness :
    (qualifies (some ⟨fun _ => some (.namedT ["ProtoReflect", "GetField"])⟩)
        (.ident "t") "Field" = true) ∧
    (V1.visitStmt (some ⟨fun _ => some (.namedT ["ProtoReflect", "GetField"])⟩)
        (.incDecStmt (.ident "n")) = [] ∧
     V1.visitStmt (some ⟨fun _ => some (.namedT ["ProtoReflect", "GetField"])⟩)
        (.incDecStmt (.indexExpr (.ident "m") (.selectorExpr (.ident "t") "Field"))) = [] ∧
     V1.visitExpr (some ⟨fun _ => some (.namedT ["ProtoReflect", "GetField"])⟩)
        (.selectorExpr (.ident "t") "Field") ≠ []) :=
  ⟨by decide,
   claim_C10 (some ⟨fun _ => some (.namedT ["ProtoReflect", "GetField"])⟩)
     (.ident "n") (.ident "m") (.ident "t") "Field" (by decide)⟩

namespace V1

mutual

/-- Applying every suggested fix the earlier revision emits inside an
expression: each reported selector `x.sel` is replaced by `x'.Getsel()`,
where `x'` is the base with its own fixes applied (the outer fix keeps the
base text verbatim, so the nested fixes land inside it); pruned positions
(an address-of operand) receive no fix. -/
def applyFixesExpr (info : Option TypesInfo) : Expr → Expr
  | .selectorExpr x s =>
    if qualifies info x s then
      .callExpr (.selectorExpr (applyFixesExpr info x) ("Get" ++ s)) .nil
    else
      .selectorExpr (applyFixesExpr info x) s
  | .unaryExpr op x =>
    if op = .and then .unaryExpr op x else .unaryExpr op (applyFixesExpr info x)
  | .indexExpr x i => .indexExpr (applyFixesExpr info x) (applyFixesExpr info i)
  | .callExpr f a => .callExpr (applyFixesExpr info f) (applyFixesArgs info a)
  | e => e

/-- Applying the suggested fixes inside every member of an expression list. -/
def applyFixesArgs (info : Option TypesInfo) : ExprList → ExprList
  | .nil => .nil
  | .cons a rest => .cons (applyFixesExpr info a) (applyFixesArgs info rest)

end

/-- Applying the suggested fixes inside a statement; exempt (pruned)
statements produce no Finding and hence receive no fix. -/
def applyFixesStmt (info : Option TypesInfo) : Stmt → Stmt
  | .assignStmt lhs rhs =>
    if lhs.any isSelectorExpr then .assignStmt lhs rhs
    else .assignStmt (applyFixesArgs info lhs) (applyFixesArgs info rhs)
  | .incDecStmt x => .incDecStmt x
  | .exprStmt x => .exprStmt (applyFixesExpr info x)

/-- Applying the suggested fixes to a whole file (comments unchanged). -/
def applyFixesFile (info : Option TypesInfo) (f : GoFile) : GoFile :=
  { comments := f.comments, decls := f.decls.map (applyFixesStmt info) }

end V1

/-- Two expressions with the same resolved type answer every capability query
alike. -/
theorem methodExists_congr (info : Option TypesInfo) (a b : Expr) (name : String)
    (h : typeOfInfo info a = typeOfInfo info b) :
    methodExists info a name = methodExists info b name := by
  cases info with
  | none => rfl
  | some i =>
    simp only [typeOfInfo] at h
    simp only [methodExists, h]

/-- Two expressions with the same resolved type agree on being a proto
message. -/
theorem isProtoMessage_congr (info : Option TypesInfo) (a b : Expr)
    (h : typeOfInfo info a = typeOfInfo info b) :
    isProtoMessage info a = isProtoMessage info b := by
  unfold isProtoMessage
  rw [methodExists_congr info a b "ProtoReflect" h,
    methodExists_congr info a b "ProtoMessage" h,
    methodExists_congr info a b "MarshalToSizedBuffer" h]

/-- Two expressions with the same resolved type qualify alike for any field. -/
theorem qualifies_congr (info : Option TypesInfo) (a b : Expr) (s : String)
    (h : typeOfInfo info a = typeOfInfo info b) :
    qualifies info a s = qualifies info b s := by
  unfold qualifies
  rw [isProtoMessage_congr info a b h,
    methodExists_congr info a b ("Get" ++ s) h]

/-- Applying fixes never turns a non-selector expression into a selector. -/
theorem isSelector_applyFixes (info : Option TypesInfo) (e : Expr)
    (h : isSelectorExpr e = false) :
    isSelectorExpr (V1.applyFixesExpr info e) = false := by
  cases e with
  | selectorExpr x s => simp [isSelectorExpr] at h
  | unaryExpr op x =>
    by_cases hop : op = UnaryOp.and <;> simp [V1.applyFixesExpr, hop, isSelectorExpr]
  | ident n => simp [V1.applyFixesExpr, isSelectorExpr]
  | basicLit t => simp [V1.applyFixesExpr, isSelectorExpr]
  | badExpr w => simp [V1.applyFixesExpr, isSelectorExpr]
  | indexExpr x i => simp [V1.applyFixesExpr, isSelectorExpr]
  | callExpr f a => simp [V1.applyFixesExpr, isSelectorExpr]

/-- Applying fixes inside a selector-free left-hand-side list keeps it
selector-free. -/
theorem anySel_applyFixesArgs (info : Option TypesInfo) :
    (l : ExprList) → l.any isSelectorExpr = false →
      (V1.applyFixesArgs info l).any isSelectorExpr = false
  | .nil, _ => rfl
  | .cons a rest, h => by
    simp only [ExprList.any, Bool.or_eq_false_iff] at h
    simp only [V1.applyFixesArgs, ExprList.any, Bool.or_eq_false_iff]
    exact ⟨isSelector_applyFixes info a h.1, anySel_applyFixesArgs info rest h.2⟩

mutual

/-- After applying all its own fixes, the earlier revision finds nothing in an
expression, provided the rewrite preserves resolved types (the accessor
returns the field's value). -/
theorem visitExpr_applyFixes (info : Option TypesInfo)
    (h : ∀ e, typeOfInfo info (V1.applyFixesExpr info e) = typeOfInfo info e) :
    (e : Expr) → V1.visitExpr info (V1.applyFixesExpr info e) = []
  | .ident _ => rfl
  | .basicLit _ => rfl
  | .badExpr _ => rfl
  | .selectorExpr x s => by
    have ihx := visitExpr_applyFixes info h x
    by_cases hq : qualifies info x s = true
    · have hnone := analyzeSelectorExpr_none_of_pre info (V1.applyFixesExpr info x)
        ("Get" ++ s) (goHasPre_get s)
      simp [V1.applyFixesExpr, hq, V1.visitExpr, V1.visitArgs, hnone, ihx]
    · have hq0 : qualifies info x s = false := by
        simpa using hq
      have hq2 : qualifies info (V1.applyFixesExpr info x) s = false := by
        rw [qualifies_congr info _ x s (h x)]
        exact hq0
      have hnone := analyzeSelectorExpr_none_of_not_qualifies info
        (V1.applyFixesExpr info x) s hq2
      simp [V1.applyFixesExpr, hq0, V1.visitExpr, hnone, ihx]
  | .unaryExpr op x => by
    have ihx := visitExpr_applyFixes info h x
    by_cases hop : op = UnaryOp.and
    · simp [V1.applyFixesExpr, hop, V1.visitExpr]
    · simp [V1.applyFixesExpr, hop, V1.visitExpr, ihx]
  | .indexExpr x i => by
    have ih1 := visitExpr_applyFixes info h x
    have ih2 := visitExpr_applyFixes info h i
    simp [V1.applyFixesExpr, V1.visitExpr, ih1, ih2]
  | .callExpr f a => by
    have ihf := visitExpr_applyFixes info h f
    have iha := visitArgs_applyFixes info h a
    simp [V1.applyFixesExpr, V1.visitExpr, ihf, iha]

/-- After applying all its own fixes, the earlier revision finds nothing in an
expression list. -/
theorem visitArgs_applyFixes (info : Option TypesInfo)
    (h : ∀ e, typeOfInfo info (V1.applyFixesExpr info e) = typeOfInfo info e) :
    (l : ExprList) → V1.visitArgs info (V1.applyFixesArgs info l) = []
  | .nil => rfl
  | .cons a rest => by
    have ih1 := visitExpr_applyFixes info h a
    have ih2 := visitArgs_applyFixes info h rest
    simp [V1.applyFixesArgs, V1.visitArgs, ih1, ih2]

end

/-- After applying all its own fixes, the earlier revision finds nothing in a
statement. -/
theorem visitStmt_applyFixes (info : Option TypesInfo)
    (h : ∀ e, typeOfInfo info (V1.applyFixesExpr info e) = typeOfInfo info e) :
    (s : Stmt) → V1.visitStmt info (V1.applyFixesStmt info s) = []
  | .assignStmt lhs rhs => by
    by_cases hsel : lhs.any isSelectorExpr = true
    · simp [V1.applyFixesStmt, hsel, V1.visitStmt]
    · have hsel0 : lhs.any isSelectorExpr = false := by simpa using hsel
      have hsel2 := anySel_applyFixesArgs info lhs hsel0
      simp [V1.applyFixesStmt, hsel0, V1.visitStmt, hsel2,
        visitArgs_applyFixes info h lhs, visitArgs_applyFixes info h rhs]
  | .incDecStmt _ => rfl
  | .exprStmt x => by
    simp [V1.applyFixesStmt, V1.visitStmt, visitExpr_applyFixes info h x]

/-- After applying all its own fixes, the earlier revision finds nothing in a
statement list. -/
theorem visitStmts_applyFixes (info : Option TypesInfo)
    (h : ∀ e, typeOfInfo info (V1.applyFixesExpr info e) = typeOfInfo info e) :
    (l : List Stmt) → V1.visitStmts info (l.map (V1.applyFixesStmt info)) = []
  | [] => rfl
  | s :: rest => by
    simp [V1.visitStmts, visitStmt_applyFixes info h s,
      visitStmts_applyFixes info h rest]

/-- C5: a field already carrying the Get naming convention is never reported,
and running the analysis on the output of applying all of its own suggested
fixes yields zero Findings (given that the rewrite preserves resolved types,
the guarantee accessors provide). -/
theorem claim_C5 (info : Option TypesInfo) (x : Expr) (s : String)
    (files : List GoFile)
    (hpre : goHasPre s "Get" = true)
    (h : ∀ e, typeOfInfo info (V1.applyFixesExpr info e) = typeOfInfo info e) :
    V1.analyzeSelectorExpr info x s = none ∧
    V1.run info (files.map (V1.applyFixesFile info)) = [] := by
  refine ⟨analyzeSelectorExpr_none_of_pre info x s hpre, ?_⟩
  simp only [V1.run, List.flatten_eq_nil_iff]
  intro l hl
  obtain ⟨f, hf, rfl⟩ := List.mem_map.mp hl
  have hf2 : f ∈ List.map (V1.applyFixesFile info) files := (List.mem_filter.mp hf).1
  obtain ⟨g, hg, rfl⟩ := List.mem_map.mp hf2
  exact visitStmts_applyFixes info h _

/-- C5 witness: with a concrete proto type, a Get-named field is not reported,
and the fixed-up version of a program with a qualifying access (t.Name, which
the original run does report) yields zero Findings. -/
theorem claim_C5_witness :
    (goHasPre "GetName" "Get" = true) ∧
    (∀ e, typeOfInfo (some ⟨fun _ => some (.namedT ["ProtoReflect", "GetName"])⟩)
        (V1.applyFixesExpr (some ⟨fun _ => some (.namedT ["ProtoReflect", "GetName"])⟩) e) =
      typeOfInfo (some ⟨fun _ => some (.namedT ["ProtoReflect", "GetName"])⟩) e) ∧
    (V1.analyzeSelectorExpr (some ⟨fun _ => some (.namedT ["ProtoReflect", "GetName"])⟩)
        (.ident "t") "GetName" = none ∧
     V1.run (some ⟨fun _ => some (.namedT ["ProtoReflect", "GetName"])⟩)
        ([⟨[], [.exprStmt (.selectorExpr (.ident "t") "Name")]⟩].map
          (V1.applyFixesFile (some ⟨fun _ => some (.namedT ["ProtoReflect", "GetName"])⟩))) = []) :=
  ⟨by decide, fun _ => rfl,
   claim_C5 (some ⟨fun _ => some (.namedT ["ProtoReflect", "GetName"])⟩) (.ident "t") "GetName"
     [⟨[], [.exprStmt (.selectorExpr (.ident "t") "Name")]⟩] (by decide) (fun _ => rfl)⟩

/-- The processor never touches the replaced-span registry; it only adds
exempt positions. -/
theorem Process_replaced (info : Option TypesInfo) (f : V2.PosFilter)
    (n : V2.NodeAt) (f2 : V2.PosFilter) (res : V2.Result)
    (h : V2.Process info f n = .ok (f2, res)) : f2.replaced = f.replaced := by
  obtain ⟨node, pos, endPos⟩ := n
  rcases node with s | e
  · rcases s with ⟨lhs, rhs⟩ | x | x
    · simp only [V2.Process] at h
      split at h <;>
        (injection h with h2
         injection h2 with ha hb
         subst ha
         rfl)
    · simp only [V2.Process] at h
      injection h with h2
      injection h2 with ha hb
      subst ha
      rfl
    · simp only [V2.Process] at h
      injection h with h2
      injection h2 with ha hb
      subst ha
      rfl
  · rcases e with n1 | t | w | ⟨x, s⟩ | ⟨op, x⟩ | ⟨x, i⟩ | ⟨fn, a⟩ <;>
      simp only [V2.Process] at h
    case selectorExpr =>
      split at h
      · split at h
        · injection h with h2
          injection h2 with ha hb
          subst ha
          rfl
        · exact Except.noConfusion h
      · injection h with h2
        injection h2 with ha hb
        subst ha
        rfl
    case unaryExpr =>
      split at h <;>
        (injection h with h2
         injection h2 with ha hb
         subst ha
         rfl)
    all_goals
      injection h with h2
      injection h2 with ha hb
      subst ha
      rfl

/-- Case analysis on `analyse`: either no Finding is accepted and the
registry only grows, or the node's exact range is accepted, the registry
grows by exactly that range, and the accepted range overlaps no previously
registered range. -/
theorem analyse_spec (info : Option TypesInfo) (f : V2.PosFilter) (n : V2.NodeAt) :
    ((V2.analyse info f n).2.2 = none ∧ f.replaced ⊆ (V2.analyse info f n).1.replaced) ∨
    ((∃ res, (V2.analyse info f n).2.2 = some ⟨n.pos, n.endPos, res⟩) ∧
      (V2.analyse info f n).1.replaced = f.replaced ++ [(n.pos, n.endPos)] ∧
      ∀ q ∈ f.replaced, V2.rangesOverlap q (n.pos, n.endPos) = false) := by
  unfold V2.analyse
  split
  · exact Or.inl ⟨rfl, fun a ha => ha⟩
  · split
    · exact Or.inl ⟨rfl, fun a ha => ha⟩
    · rename_i heq
      have hrep := Process_replaced info f n _ _ heq
      split
      · exact Or.inl ⟨rfl, by rw [hrep]; exact fun a ha => ha⟩
      · split
        · exact Or.inl ⟨rfl, by rw [hrep]; exact fun a ha => ha⟩
        · split
          · exact Or.inl ⟨rfl, by rw [hrep]; exact fun a ha => ha⟩
          · rename_i hnotrep
            refine Or.inr ⟨⟨_, rfl⟩, ?_, ?_⟩
            · simp [V2.PosFilter.addAlreadyReplaced, hrep]
            · simp only [V2.PosFilter.isAlreadyReplaced, Bool.not_eq_true,
                List.any_eq_false] at hnotrep
              rw [hrep] at hnotrep
              intro q hq
              simpa using hnotrep q hq

/-- The run-state invariant behind the no-overlap guarantee: every accepted
Finding's range is registered, and the accepted Findings are pairwise
disjoint. -/
def ReplacedInv (f : V2.PosFilter) (rs : List V2.Report) : Prop :=
  (∀ r ∈ rs, (r.pos, r.endPos) ∈ f.replaced) ∧ rs.Pairwise V2.disjointRanges

/-- One traversal step preserves the run-state invariant. -/
theorem step_inv (info : Option TypesInfo) (st : V2.RunState) (n : V2.NodeAt)
    (h : ReplacedInv st.filter st.reports) :
    ReplacedInv (V2.step info st n).filter (V2.step info st n).reports := by
  obtain ⟨hmem, hpair⟩ := h
  have hspec := analyse_spec info st.filter n
  unfold V2.step
  rcases hA : V2.analyse info st.filter n with ⟨f2, ds, rep⟩
  rw [hA] at hspec
  rcases hspec with ⟨hnone, hsub⟩ | ⟨⟨res, hsome⟩, hgrow, hover⟩
  · simp only at hnone
    subst hnone
    exact ⟨fun r hr => hsub (hmem r hr), hpair⟩
  · simp only at hsome hgrow
    subst hsome
    simp only
    constructor
    · intro r hr
      rcases List.mem_append.mp hr with hr | hr
      · rw [hgrow]
        exact List.mem_append_left _ (hmem r hr)
      · rw [List.mem_singleton.mp hr, hgrow]
        exact List.mem_append_right _ (List.mem_singleton.mpr rfl)
    · rw [List.pairwise_append]
      refine ⟨hpair, List.pairwise_singleton _ _, ?_⟩
      intro a ha b hb
      rw [List.mem_singleton.mp hb]
      have hov := hover (a.pos, a.endPos) (hmem a ha)
      simp only [V2.rangesOverlap, Bool.and_eq_false_iff,
        decide_eq_false_iff_not, not_lt] at hov
      unfold V2.disjointRanges
      simp only
      omega

/-- The whole traversal preserves the run-state invariant. -/
theorem runNodes_inv (info : Option TypesInfo) :
    (nodes : List V2.NodeAt) → (st : V2.RunState) →
      ReplacedInv st.filter st.reports →
      ReplacedInv (V2.runNodes info st nodes).filter (V2.runNodes info st nodes).reports
  | [], _, h => h
  | n :: rest, st, h =>
    runNodes_inv info rest (V2.step info st n) (step_inv info st n h)

/-- A step never shrinks the replaced-span registry. -/
theorem step_replaced_mono (info : Option TypesInfo) (st : V2.RunState)
    (n : V2.NodeAt) :
    st.filter.replaced ⊆ (V2.step info st n).filter.replaced := by
  have hspec := analyse_spec info st.filter n
  unfold V2.step
  rcases hA : V2.analyse info st.filter n with ⟨f2, ds, rep⟩
  rw [hA] at hspec
  rcases hspec with ⟨hnone, hsub⟩ | ⟨_, hgrow, _⟩
  · simp only at hnone hsub
    subst hnone
    exact hsub
  · rcases rep with _ | r
    · simp only at hgrow
      simp only
      rw [hgrow]
      exact List.subset_append_left _ _
    · simp only at hgrow
      simp only
      rw [hgrow]
      exact List.subset_append_left _ _

/-- The registry only grows over the remainder of a run: a registered range
is never removed. -/
theorem runNodes_replaced_mono (info : Option TypesInfo) :
    (nodes : List V2.NodeAt) → (st : V2.RunState) →
      st.filter.replaced ⊆ (V2.runNodes info st nodes).filter.replaced
  | [], _ => fun a ha => ha
  | n :: rest, st =>
    fun a ha =>
      runNodes_replaced_mono info rest (V2.step info st n)
        (step_replaced_mono info st n ha)

/-- C2: every two Findings accepted in one run have disjoint source ranges; a
registered range is never removed for the remainder of the run; and the
nested access a.B.C, both levels qualifying, yields exactly one Finding, the
one visited first in pre-order (the full access a.B.C). -/
theorem claim_C2 (info : Option TypesInfo) (nodes extra : List V2.NodeAt)
    (f : V2.PosFilter) (rs : List V2.Report) (ds : List V2.Diagnostic)
    (h1 : qualifies info (.ident "a") "B" = true)
    (h2 : qualifies info (.selectorExpr (.ident "a") "B") "C" = true) :
    (V2.runNodes info ⟨V2.PosFilter.empty, [], []⟩ nodes).reports.Pairwise
      V2.disjointRanges ∧
    f.replaced ⊆ (V2.runNodes info ⟨f, rs, ds⟩ extra).filter.replaced ∧
    (V2.run info
        [⟨[], [.exprStmt (.selectorExpr (.selectorExpr (.ident "a") "B") "C")]⟩]).1 =
      [⟨0, 5, ⟨false, "a.B.C", "a.B.GetC()"⟩⟩] := by
  refine ⟨?_, ?_, ?_⟩
  · exact (runNodes_inv info nodes ⟨V2.PosFilter.empty, [], []⟩
      ⟨fun r hr => absurd hr (List.not_mem_nil r), List.Pairwise.nil⟩).2
  · exact runNodes_replaced_mono info extra ⟨f, rs, ds⟩
  · have hfe1 : formatE (.ident "a") = .ok "a" := rfl
    have hfe2 : formatE (.selectorExpr (.ident "a") "B") = .ok "a.B" := rfl
    have hfe3 : formatE (.selectorExpr (.selectorExpr (.ident "a") "B") "C") =
        .ok "a.B.C" := rfl
    have hla : "a".length = 1 := rfl
    have hlb : "B".length = 1 := rfl
    have hlc : "C".length = 1 := rfl
    simp [V2.run, V2.filesNodes, V2.preStmts, V2.preStmt, V2.preExpr, V2.runNodes,
      V2.step, V2.analyse, V2.Process, V2.PosFilter.empty, V2.PosFilter.isFiltered,
      V2.PosFilter.isAlreadyReplaced, V2.PosFilter.addAlreadyReplaced, V2.Result.skip,
      isGeneratedFile, exprLen, stmtLen, V2.rangesOverlap, h1, h2, hfe1, hfe2, hfe3,
      hla, hlb, hlc]

/-- C2 witness: a concrete type oracle on which both a.B and a.B.C qualify
produces exactly the outer Finding, with disjointness and registry growth
established for the empty node stream. -/
theorem claim_C2_witness :
    (qualifies (some ⟨fun _ => some (.namedT ["ProtoReflect", "GetB", "GetC"])⟩)
        (.ident "a") "B" = true) ∧
    (qualifies (some ⟨fun _ => some (.namedT ["ProtoReflect", "GetB", "GetC"])⟩)
        (.selectorExpr (.ident "a") "B") "C" = true) ∧
    ((V2.runNodes (some ⟨fun _ => some (.namedT ["ProtoReflect", "GetB", "GetC"])⟩)
        ⟨V2.PosFilter.empty, [], []⟩ []).reports.Pairwise V2.disjointRanges ∧
     V2.PosFilter.empty.replaced ⊆
       (V2.runNodes (some ⟨fun _ => some (.namedT ["ProtoReflect", "GetB", "GetC"])⟩)
         ⟨V2.PosFilter.empty, [], []⟩ []).filter.replaced ∧
     (V2.run (some ⟨fun _ => some (.namedT ["ProtoReflect", "GetB", "GetC"])⟩)
         [⟨[], [.exprStmt (.selectorExpr (.selectorExpr (.ident "a") "B") "C")]⟩]).1 =
       [⟨0, 5, ⟨false, "a.B.C", "a.B.GetC()"⟩⟩]) :=
  ⟨by decide, by decide,
   claim_C2 (some ⟨fun _ => some (.namedT ["ProtoReflect", "GetB", "GetC"])⟩)
     [] [] V2.PosFilter.empty [] [] (by decide) (by decide)⟩

/-- C8: when the processor fails on a node, the failure is surfaced as a plain
diagnostic at that node's range, no Finding is produced for the node, and the
traversal continues over the remaining nodes with state otherwise unchanged. -/
theorem claim_C8 (info : Option TypesInfo) (f : V2.PosFilter) (n : V2.NodeAt)
    (rest : List V2.NodeAt) (rs : List V2.Report) (ds : List V2.Diagnostic)
    (e : String)
    (hf : f.isFiltered n.pos = false)
    (herr : V2.Process info f n = .error e) :
    V2.analyse info f n =
      (f, [⟨n.pos, n.endPos, "error: " ++ e, []⟩], none) ∧
    V2.runNodes info ⟨f, rs, ds⟩ (n :: rest) =
      V2.runNodes info ⟨f, rs, ds ++ [⟨n.pos, n.endPos, "error: " ++ e, []⟩]⟩ rest := by
  have hA : V2.analyse info f n =
      (f, [⟨n.pos, n.endPos, "error: " ++ e, []⟩], none) := by
    unfold V2.analyse
    rw [herr]
    simp [hf]
  refine ⟨hA, ?_⟩
  have hstep : V2.step info ⟨f, rs, ds⟩ n =
      ⟨f, rs, ds ++ [⟨n.pos, n.endPos, "error: " ++ e, []⟩]⟩ := by
    unfold V2.step
    rw [show (⟨f, rs, ds⟩ : V2.RunState).filter = f from rfl, hA]
  rw [V2.runNodes, hstep]

/-- C8 witness: a malformed selector base makes synthesis fail on a concrete
node; the run emits the error diagnostic at the node's range, produces no
Finding, and continues. -/
theorem claim_C8_witness :
    (V2.PosFilter.empty.isFiltered 0 = false) ∧
    (V2.Process (some ⟨fun _ => some (.namedT ["ProtoReflect", "GetName"])⟩)
        V2.PosFilter.empty
        ⟨.exprNode (.selectorExpr (.badExpr 2) "Name"), 0, 7⟩ = .error "format node") ∧
    (V2.analyse (some ⟨fun _ => some (.namedT ["ProtoReflect", "GetName"])⟩)
        V2.PosFilter.empty ⟨.exprNode (.selectorExpr (.badExpr 2) "Name"), 0, 7⟩ =
      (V2.PosFilter.empty, [⟨0, 7, "error: " ++ "format node", []⟩], none) ∧
     V2.runNodes (some ⟨fun _ => some (.namedT ["ProtoReflect", "GetName"])⟩)
        ⟨V2.PosFilter.empty, [], []⟩
        [⟨.exprNode (.selectorExpr (.badExpr 2) "Name"), 0, 7⟩] =
      V2.runNodes (some ⟨fun _ => some (.namedT ["ProtoReflect", "GetName"])⟩)
        ⟨V2.PosFilter.empty, [], [⟨0, 7, "error: " ++ "format node", []⟩]⟩ []) :=
  ⟨rfl, rfl,
   claim_C8 (some ⟨fun _ => some (.namedT ["ProtoReflect", "GetName"])⟩)
     V2.PosFilter.empty ⟨.exprNode (.selectorExpr (.badExpr 2) "Name"), 0, 7⟩
     [] [] [] "format node" rfl rfl⟩
